import Mathlib

/-!
Verification of the spla sparse linear algebra runtime against its natural
language specification.  The definitions below are shallow embeddings of the
C++ sources: core/tmatrix.hpp, cpu/cpu_v_assign.hpp, opencl/cl_vxm.hpp,
expression/vector/SplaVectorEWiseAdd.cpp and spla-cpp/SplaUtils.hpp.
Machine integers are modelled as Nat with explicit wraparound where overflow
matters; fallible operations return Status values or Except.
-/

namespace Spla

/-- Status codes returned from every operation (spla public interface). -/
inductive Status where
  | Ok
  | Error
  | InvalidArgument
  | InvalidState
  | NotImplemented
  | CompilationError
  | DeviceError
  | OutOfMemory
  | Aborted
  | Failed
  deriving DecidableEq

/-- Host storage formats of a matrix (subset used by core/tmatrix.hpp). -/
inductive FormatMatrix where
  | CpuLil
  | CpuDok
  | CpuCoo
  | CpuCsr
  deriving DecidableEq

/-- Storage bundle of a TMatrix, projected onto the parts the embedded
operations touch: dimensions, fill value, the DOK map (an association list
keyed by row and column), the COO triple arrays, the reduce operators
carried by the LIL and DOK containers, and one validity flag per format. -/
structure MatrixStorage (T : Type) where
  n_rows : Nat
  n_cols : Nat
  fill_value : T
  lil_reduce : Option (T → T → T)
  dok_reduce : Option (T → T → T)
  dok_Ax : List ((Nat × Nat) × T)
  coo_Ai : List Nat
  coo_Aj : List Nat
  coo_Ax : List T
  valid_lil : Bool
  valid_dok : Bool
  valid_coo : Bool
  valid_csr : Bool

/-- Modelled from the spec: storage_manager.hpp is not under src.  Spec 4.C,
validate_rwd has discard semantics: invalidate all formats and make the
target format empty and valid.  Here for the CpuCoo target of
TMatrix::build: the COO arrays are emptied and only CpuCoo stays valid. -/
def MatrixStorage.validate_rwd_coo {T : Type} (st : MatrixStorage T) : MatrixStorage T :=
  { st with
    coo_Ai := [], coo_Aj := [], coo_Ax := [],
    valid_lil := false, valid_dok := false, valid_coo := true, valid_csr := false }

/-- Key comparison of the DOK map, row first then column. -/
def keyLe (a b : Nat × Nat) : Bool :=
  if a.1 = b.1 then Nat.ble a.2 b.2 else Nat.ble a.1 b.1

/-- Insertion into a key sorted association list (helper of the modelled
DOK to COO conversion). -/
def insertByKey {T : Type} (x : (Nat × Nat) × T) : List ((Nat × Nat) × T) → List ((Nat × Nat) × T)
  | [] => [x]
  | y :: ys => if keyLe x.1 y.1 then x :: y :: ys else y :: insertByKey x ys

/-- Sorting of an association list by key (helper of the modelled DOK to
COO conversion). -/
def sortByKey {T : Type} : List ((Nat × Nat) × T) → List ((Nat × Nat) × T)
  | [] => []
  | x :: xs => insertByKey x (sortByKey xs)

/-- Modelled from the spec: storage_manager.hpp is not under src.  Spec 4.C,
validate_rw ensures the target format is valid, converting from a valid
source when needed and performing no data movement when the target is
already valid (spec 8, idempotence).  For the CpuCoo target the modelled
conversion sorts the DOK map by key into the COO triple arrays. -/
def MatrixStorage.validate_rw_coo {T : Type} (st : MatrixStorage T) : MatrixStorage T :=
  if st.valid_coo then st
  else
    let sorted := sortByKey st.dok_Ax
    { st with
      coo_Ai := sorted.map (fun e => e.1.1),
      coo_Aj := sorted.map (fun e => e.1.2),
      coo_Ax := sorted.map (fun e => e.2),
      valid_coo := true }

/-- TMatrix::set_reduce (core/tmatrix.hpp lines 144 to 156).  The argument
is the result of the safe cast of the operator to the typed binary
operator: some function on success, none on failure.  On success the
reduce operator is installed on the LIL and the DOK containers, yet the
function falls through to return InvalidArgument on every path. -/
def TMatrix.set_reduce {T : Type} (resolve_duplicates : Option (T → T → T))
    (st : MatrixStorage T) : Status × MatrixStorage T :=
  match resolve_duplicates with
  | some reduce =>
      (Status.InvalidArgument, { st with lil_reduce := some reduce, dok_reduce := some reduce })
  | none => (Status.InvalidArgument, st)

/-- Lookup in the DOK association list, mirroring Ax.find(Key(row, col)). -/
def dokFind {T : Type} (dok : List ((Nat × Nat) × T)) (key : Nat × Nat) : Option T :=
  (dok.find? (fun e => e.1 = key)).map (fun e => e.2)

/-- TMatrix::get_int (core/tmatrix.hpp lines 177 to 190).  The value is
initialised with the fill value and overwritten by the cast entry when
the DOK map holds the key; the status is Ok on every path and no bounds
check against the matrix dimensions is performed.  The static_cast to
int32 is the parameter cast. -/
def TMatrix.get_int {T : Type} (cast : T → Int) (st : MatrixStorage T)
    (row_id col_id : Nat) : Status × Int :=
  let value := cast st.fill_value
  match dokFind st.dok_Ax (row_id, col_id) with
  | some entry => (Status.Ok, cast entry)
  | none => (Status.Ok, value)

/-- TMatrix::get_uint (core/tmatrix.hpp lines 191 to 204), same shape as
get_int with the cast to uint32. -/
def TMatrix.get_uint {T : Type} (cast : T → Nat) (st : MatrixStorage T)
    (row_id col_id : Nat) : Status × Nat :=
  let value := cast st.fill_value
  match dokFind st.dok_Ax (row_id, col_id) with
  | some entry => (Status.Ok, cast entry)
  | none => (Status.Ok, value)

/-- TMatrix::get_float (core/tmatrix.hpp lines 205 to 218), same shape as
get_int with the cast to float modelled over the rationals. -/
def TMatrix.get_float {T : Type} (cast : T → Rat) (st : MatrixStorage T)
    (row_id col_id : Nat) : Status × Rat :=
  let value := cast st.fill_value
  match dokFind st.dok_Ax (row_id, col_id) with
  | some entry => (Status.Ok, cast entry)
  | none => (Status.Ok, value)

/-- TMatrix::build (core/tmatrix.hpp lines 220 to 253).  The byte sizes of
the views are modelled by the list lengths: the element count is the
length of keys1, and the two InvalidArgument guards check that values and
keys2 have that same count.  On success the COO storage is write
discarded and the three arrays are copied verbatim. -/
def TMatrix.build {T : Type} (keys1 keys2 : List Nat) (values : List T)
    (st : MatrixStorage T) : Status × MatrixStorage T :=
  let elements_count := keys1.length
  if values.length ≠ elements_count then (Status.InvalidArgument, st)
  else if keys2.length ≠ elements_count then (Status.InvalidArgument, st)
  else
    let st := st.validate_rwd_coo
    (Status.Ok,
      { st with coo_Ai := keys1, coo_Aj := keys2, coo_Ax := values })

/-- TMatrix::read (core/tmatrix.hpp lines 254 to 269).  The COO format is
made valid for read and write and views over the three COO arrays are
returned with status Ok. -/
def TMatrix.read {T : Type} (st : MatrixStorage T) :
    Status × (List Nat × List Nat × List T) × MatrixStorage T :=
  let st := st.validate_rw_coo
  (Status.Ok, (st.coo_Ai, st.coo_Aj, st.coo_Ax), st)

/-- Update of position i of a list by a function, a no-op out of range;
mirrors an indexed store into a dense array. -/
def listUpd {T : Type} (l : List T) (i : Nat) (f : T → T) : List T :=
  match l.get? i with
  | some x => l.set i (f x)
  | none => l

/-- Loop body of Algo_v_assign_masked_cpu::execute_dn2dn (cpu/cpu_v_assign.hpp
lines 125 to 129): one pass over the indices, assigning where the select
predicate accepts the dense mask entry. -/
def v_assign_dn_loop {T : Type} (func_select : T → Bool) (func_assign : T → T → T)
    (assign_value : T) (mask r : List T) : List T :=
  List.zipWith (fun m x => if func_select m then func_assign x assign_value else x) mask r

/-- Algo_v_assign_masked_cpu::execute_dn2dn (cpu/cpu_v_assign.hpp lines 102
to 132).  The target r is first validated write-discard into the dense
format; modelled from the spec (storage_manager.hpp is not under src), the
discarded dense target holds the fill value at every position, so the prior
dense content r_prior is dropped.  The mask is dense, N is the row count of
r. -/
def v_assign_masked_dn2dn {T : Type} (n : Nat) (fill : T) (r_prior : List T)
    (mask : List T) (assign_value : T) (func_assign : T → T → T)
    (func_select : T → Bool) : List T :=
  let _ := r_prior
  v_assign_dn_loop func_select func_assign assign_value mask (List.replicate n fill)

/-- Algo_v_assign_masked_cpu::execute_sp2dn (cpu/cpu_v_assign.hpp lines 68
to 100).  The target r is validated write-discard into the dense format
(all fill, prior content dropped, modelled from the spec as for dn2dn);
the mask is a COO vector with index array Ai and value array Ax, and each
selected mask entry scatters one assignment into r. -/
def v_assign_masked_sp2dn {T : Type} (n : Nat) (fill : T) (r_prior : List T)
    (mask_Ai : List Nat) (mask_Ax : List T) (assign_value : T)
    (func_assign : T → T → T) (func_select : T → Bool) : List T :=
  let _ := r_prior
  (mask_Ai.zip mask_Ax).foldl
    (fun acc e =>
      if func_select e.2 then listUpd acc e.1 (fun x => func_assign x assign_value) else acc)
    (List.replicate n fill)

/-- Size of size_t on the target platform, used by the loader model for the
unsigned decrement of the declared entry count. -/
def sizeTMod : Nat := 2 ^ 64

/-- Unsigned decrement of a size_t value, wrapping at zero. -/
def sizeDec (n : Nat) : Nat :=
  if n = 0 then sizeTMod - 1 else n - 1

/-- Line loop of MatrixLoader::Load (spla-cpp/SplaUtils.hpp lines 158 to
191): each line carries a one-based row index, a one-based column index and
a value; a row index outside one to nrows or a column index outside one to
ncols throws; with removeSelfLoops a diagonal line is skipped and the
declared count nnz is decremented; otherwise the indices are appended and,
unless ignoreValues, the value too. -/
def loaderLines (nrows ncols : Nat) (removeSelfLoops ignoreValues : Bool) :
    List (Nat × Nat × Int) → Nat → List Nat → List Nat → List Int →
    Except String (List Nat × List Nat × List Int × Nat)
  | [], nnz, rows, cols, vals => .ok (rows, cols, vals, nnz)
  | (i, j, v) :: rest, nnz, rows, cols, vals =>
    if ¬(1 ≤ i ∧ i ≤ nrows) then .error "Row index is out of bounds"
    else if ¬(1 ≤ j ∧ j ≤ ncols) then .error "Column index is out of bounds"
    else if removeSelfLoops ∧ i = j then
      loaderLines nrows ncols removeSelfLoops ignoreValues rest (sizeDec nnz) rows cols vals
    else
      loaderLines nrows ncols removeSelfLoops ignoreValues rest nnz
        (rows ++ [i]) (cols ++ [j]) (vals ++ if ignoreValues then [] else [v])

/-- MatrixLoader::DoubleEdges (spla-cpp/SplaUtils.hpp lines 295 to 307):
every non diagonal triple is mirrored and appended. -/
def doubleEdges (rows cols : List Nat) (vals : List Int) :
    List Nat × List Nat × List Int :=
  let tri := rows.zip (cols.zip vals)
  let extra := tri.filter (fun e => e.1 ≠ e.2.1)
  (rows ++ extra.map (fun e => e.2.1),
   cols ++ extra.map (fun e => e.1),
   vals ++ extra.map (fun e => e.2.2))

/-- MatrixLoader::Load (spla-cpp/SplaUtils.hpp lines 124 to 254) after the
header has been parsed into nrows, ncols and the declared count nnz and the
data lines into triples.  The line loop runs; with ignoreValues the value
array is resized to the row count with default zero values; the load fails
when the number of kept lines differs from the adjusted nnz; the kept
indices are then offset from one-based to zero-based, and with
makeUndirected the edges are doubled.  The returned count is GetNvals, the
length of the row array. -/
def MatrixLoader.Load (nrows ncols nnz : Nat) (lines : List (Nat × Nat × Int))
    (makeUndirected removeSelfLoops ignoreValues : Bool) :
    Except String (List Nat × List Nat × List Int × Nat) :=
  match loaderLines nrows ncols removeSelfLoops ignoreValues lines nnz [] [] [] with
  | .error e => .error e
  | .ok (rows, cols, vals0, nnzAdj) =>
    let vals := if ignoreValues then List.replicate rows.length (0 : Int) else vals0
    if rows.length ≠ nnzAdj then
      .error "Number of non zero values is not valid"
    else
      let rows1 := rows.map (fun k => k - 1)
      let cols1 := cols.map (fun k => k - 1)
      let out :=
        if makeUndirected then doubleEdges rows1 cols1 vals else (rows1, cols1, vals)
      .ok (out.1, out.2.1, out.2.2, out.1.length)

/-- COO vector block of the expression library
(storage/block/SplaVectorCOO.hpp interface): row index array and value
array; GetNvals is the length of the row array. -/
structure VectorCOO (V : Type) where
  nrows : Nat
  rows : List Nat
  vals : List V
  deriving DecidableEq

/-- Preparation of the value permutation indices of operand a in
VectorEWiseAdd::Process (SplaVectorEWiseAdd.cpp lines 82 to 90): when the
block of a is not null, the permutation is the counting sequence of length
GetNvals of a; otherwise it is left default empty. -/
def preparePermA {V : Type} (blockA : Option (VectorCOO V)) : List Nat :=
  match blockA with
  | some a => List.range a.rows.length
  | none => []

/-- Preparation of the value permutation indices of operand b in
VectorEWiseAdd::Process (SplaVectorEWiseAdd.cpp lines 92 to 101): the guard
checks that the block of operand a is not null, and the size is read from
GetNvals of operand b.  When the guard passes with a null b block the size
read dereferences a null pointer, modelled as none; when the guard fails
the permutation is left default empty even if b is not null. -/
def preparePermB {V : Type} (blockA blockB : Option (VectorCOO V)) :
    Option (List Nat) :=
  match blockA with
  | some _ =>
      match blockB with
      | some b => some (List.range b.rows.length)
      | none => none
  | none => some []

/-- Modelled from the spec: compute/SplaMaskByKey.hpp is not under src.
Spec 4.I, the mask is applied as a filter over the sorted index sequence
of a block, a semi join producing the surviving indices and the
permutation of survivors. -/
def maskByKey {V : Type} (maskRows : List Nat) (block : VectorCOO V)
    (perm : List Nat) : List Nat × List Nat :=
  let pairs := (block.rows.zip perm).filter (fun e => e.1 ∈ maskRows)
  (pairs.map (fun e => e.1), pairs.map (fun e => e.2))

/-- The applyMask helper of VectorEWiseAdd::Process (SplaVectorEWiseAdd.cpp
lines 108 to 137): a null block keeps a null row pointer; with no mask the
rows of the block pass through with the permutation unchanged; otherwise
the mask semi join filters the rows and compacts the permutation. -/
def applyMask {V : Type} (maskBlock block : Option (VectorCOO V))
    (perm : List Nat) : Option (List Nat) × List Nat :=
  match block with
  | none => (none, perm)
  | some blk =>
      match maskBlock with
      | none => (some blk.rows, perm)
      | some m =>
          let r := maskByKey m.rows blk perm
          (some r.1, r.2)

/-- The setResult helper of VectorEWiseAdd::Process (SplaVectorEWiseAdd.cpp
lines 149 to 163): a new COO block of the surviving rows, values gathered
from the source block through the permutation. -/
def setResult {V : Type} (block : VectorCOO V) (rows : List Nat)
    (perm : List Nat) : VectorCOO V :=
  ⟨block.nrows, rows, perm.filterMap (fun p => block.vals.get? p)⟩

/-- Per block task body of VectorEWiseAdd::Process (SplaVectorEWiseAdd.cpp
lines 69 to 177).  Input: the current block of the output w, the mask
block, the blocks of a and b; output: the block stored in w afterwards.
The outer Option is none when the task dereferences a null block.  After
the permutations are prepared and masked, a null row pointer on either
side removes the old block and copies the surviving other side; when both
sides are present the merge is an unimplemented todo and the task returns
with the output block left as it was. -/
def VectorEWiseAdd.processBlock {V : Type}
    (wOld maskBlock blockA blockB : Option (VectorCOO V)) :
    Option (Option (VectorCOO V)) :=
  let permA := preparePermA blockA
  match preparePermB blockA blockB with
  | none => none
  | some permB =>
      let ra := applyMask maskBlock blockA permA
      let rb := applyMask maskBlock blockB permB
      match ra.1, rb.1 with
      | some _, some _ => some wOld
      | some rowsA, none =>
          some (some (setResult (blockA.getD ⟨0, [], []⟩) rowsA ra.2))
      | none, some rowsB =>
          some (some (setResult (blockB.getD ⟨0, [], []⟩) rowsB rb.2))
      | none, none => some none

/-- CSR storage of a matrix on the accelerator (opencl/cl_formats.hpp
interface): row pointers Ap, column indices Aj, values Ax. -/
structure CLCsr (T : Type) where
  Ap : List Nat
  Aj : List Nat
  Ax : List T

/-- Entries of row k of a CSR matrix: the column and value pairs between
the row pointers Ap at k and at k plus one. -/
def csrRowSlice {T : Type} (M : CLCsr T) (k : Nat) : List (Nat × T) :=
  let lo := M.Ap.getD k 0
  let hi := M.Ap.getD (k + 1) 0
  ((M.Aj.zip M.Ax).drop lo).take (hi - lo)

/-- The value stored by a CSR matrix at row k and column j, when an entry
exists there. -/
def csrEntry {T : Type} (M : CLCsr T) (k j : Nat) : Option T :=
  ((csrRowSlice M k).find? (fun e => e.1 = j)).map (fun e => e.2)

/-- Modelled from the spec: the generated OpenCL kernel sources of vxm
(auto_vxm.hpp, kernels vxm_prepare and vxm_atomic_scalar launched by
Algo_vxm_masked_cl::execute_scalar) are not under src.  Spec 4.I, scalar
atomic variant: the column j is scanned for its non zero entries, read
here from the CSR rows k in order, and each contributes the product of the
dense source entry v at k with the matrix entry. -/
def vxmColumnScan {T : Type} (K : Nat) (v : Nat → T) (mul : T → T → T)
    (M : CLCsr T) (j : Nat) : List T :=
  (List.range K).flatMap
    (fun k => (csrRowSlice M k).filterMap
      (fun e => if e.1 = j then some (mul (v k) e.2) else none))

/-- Modelled from the spec: Algo_vxm_masked_cl::execute_scalar
(opencl/cl_vxm.hpp lines 131 to 192) validates r write-discard dense, the
mask and v read dense, M read CSR, then launches vxm_prepare, which stores
the initial value at every position of r, and vxm_atomic_scalar, which for
every column j accepted by the select predicate accumulates the products
of column j into r at j with the add operator (kernel sources not under
src, modelled from spec 4.I).  K is the row count of v, N the row count of
r; the result is the dense content of r. -/
def vxm_masked_scalar {T : Type} (N K : Nat) (v mask : Nat → T) (M : CLCsr T)
    (op_select : T → Bool) (op_multiply op_add : T → T → T) (init : T) :
    Nat → T :=
  let _ := N
  fun j =>
    if op_select (mask j) then (vxmColumnScan K v op_multiply M j).foldl op_add init
    else init

/-! Helper lemmas shared by the claim theorems. -/

theorem zipWith_get?_eq {α β γ : Type} (f : α → β → γ) (as : List α) (bs : List β) :
    ∀ (i : Nat) (a : α) (b : β), as.get? i = some a → bs.get? i = some b →
      (List.zipWith f as bs).get? i = some (f a b) := by
  induction as generalizing bs with
  | nil => intro i a b ha; simp at ha
  | cons x xs ih =>
    intro i a b ha hb
    cases bs with
    | nil => simp at hb
    | cons y ys =>
      cases i with
      | zero =>
        simp only [List.get?] at ha hb
        cases ha; cases hb; rfl
      | succ i =>
        simp only [List.get?] at ha hb ⊢
        exact ih ys i a b ha hb

theorem listUpd_get?_ne {T : Type} (l : List T) (k i : Nat) (f : T → T) (h : k ≠ i) :
    (listUpd l k f).get? i = l.get? i := by
  unfold listUpd
  cases l.get? k with
  | none => rfl
  | some x =>
    simp only [List.get?_eq_getElem?]
    exact List.getElem?_set_ne h

/-- An example storage state used by the concrete witnesses: an empty two
by two integer matrix with fill value zero and no valid format. -/
def exSt0 : MatrixStorage Int :=
  ⟨2, 2, 0, none, none, [], [], [], [], false, false, false, false⟩

/-- C4: TMatrix::set_reduce returns InvalidArgument even when the operator
cast succeeds and the reduce operator has been installed on the LIL and
DOK storage formats; it never returns Ok. -/
theorem set_reduce_returns_invalid_argument {T : Type}
    (resolve_duplicates : Option (T → T → T)) (st : MatrixStorage T) :
    (TMatrix.set_reduce resolve_duplicates st).1 = Status.InvalidArgument
    ∧ (TMatrix.set_reduce resolve_duplicates st).1 ≠ Status.Ok
    ∧ (∀ f, resolve_duplicates = some f →
        (TMatrix.set_reduce resolve_duplicates st).2.lil_reduce = some f
        ∧ (TMatrix.set_reduce resolve_duplicates st).2.dok_reduce = some f) := by
  refine ⟨?_, ?_, ?_⟩
  · cases resolve_duplicates <;> rfl
  · cases resolve_duplicates <;> simp [TMatrix.set_reduce]
  · intro f hf
    subst hf
    exact ⟨rfl, rfl⟩

/-- Witness for C4 at a concrete input: installing integer addition as the
reduce operator on the example matrix yields InvalidArgument while both
containers hold the operator. -/
theorem set_reduce_returns_invalid_argument_witness :
    (TMatrix.set_reduce (some (fun a b : Int => a + b)) exSt0).1 = Status.InvalidArgument
    ∧ (TMatrix.set_reduce (some (fun a b : Int => a + b)) exSt0).1 ≠ Status.Ok
    ∧ (TMatrix.set_reduce (some (fun a b : Int => a + b)) exSt0).2.lil_reduce
        = some (fun a b : Int => a + b) := by
  have h := set_reduce_returns_invalid_argument (some (fun a b : Int => a + b)) exSt0
  exact ⟨h.1, h.2.1, (h.2.2 _ rfl).1⟩

/-- C10: TMatrix::get_int, get_uint and get_float return Ok for every
coordinate pair, with no bounds check against the matrix dimensions, and
deliver the fill value whenever the DOK map holds no entry at the key. -/
theorem tmatrix_get_always_ok {T : Type} (castI : T → Int) (castU : T → Nat)
    (castF : T → Rat) (st : MatrixStorage T) (row_id col_id : Nat) :
    (TMatrix.get_int castI st row_id col_id).1 = Status.Ok
    ∧ (TMatrix.get_uint castU st row_id col_id).1 = Status.Ok
    ∧ (TMatrix.get_float castF st row_id col_id).1 = Status.Ok
    ∧ (dokFind st.dok_Ax (row_id, col_id) = none →
        (TMatrix.get_int castI st row_id col_id).2 = castI st.fill_value
        ∧ (TMatrix.get_uint castU st row_id col_id).2 = castU st.fill_value
        ∧ (TMatrix.get_float castF st row_id col_id).2 = castF st.fill_value) := by
  refine ⟨?_, ?_, ?_, ?_⟩
  · unfold TMatrix.get_int; cases dokFind st.dok_Ax (row_id, col_id) <;> rfl
  · unfold TMatrix.get_uint; cases dokFind st.dok_Ax (row_id, col_id) <;> rfl
  · unfold TMatrix.get_float; cases dokFind st.dok_Ax (row_id, col_id) <;> rfl
  · intro hnone
    unfold TMatrix.get_int TMatrix.get_uint TMatrix.get_float
    rw [hnone]
    exact ⟨rfl, rfl, rfl⟩

/-- Witness for C10 at a concrete input: a query far outside the two by two
example matrix returns Ok and the fill value. -/
theorem tmatrix_get_always_ok_witness :
    (TMatrix.get_int (fun x => x) exSt0 10 10).1 = Status.Ok
    ∧ (TMatrix.get_int (fun x => x) exSt0 10 10).2 = 0 := by
  have h := tmatrix_get_always_ok (fun x => x) (fun _ => 0) (fun _ => 0) exSt0 10 10
  exact ⟨h.1, (h.2.2.2 rfl).1⟩

/-- C2 failing input: the masked element-wise vector add of the spec
scenario, a with indices zero and two, values one and three, b with
indices one and two, values two and five, no mask.  Both blocks are non
null, so the task reaches the unimplemented merge marked todo and returns
with the output block untouched (here: still absent) instead of storing
the merged block with indices zero, one, two and values one, two, eight. -/
theorem vector_ewise_add_merge_unimplemented :
    VectorEWiseAdd.processBlock (V := Int) none none
        (some ⟨4, [0, 2], [1, 3]⟩) (some ⟨4, [1, 2], [2, 5]⟩) = some none
    ∧ VectorEWiseAdd.processBlock (V := Int) none none
        (some ⟨4, [0, 2], [1, 3]⟩) (some ⟨4, [1, 2], [2, 5]⟩)
        ≠ some (some ⟨4, [0, 1, 2], [1, 2, 8]⟩) := by
  constructor
  · rfl
  · decide

/-- C8 counterexample: with block a holding two entries and block b holding
three, the permutation prepared for operand b has length three, the count
of b itself, not the count two of operand a as the claim states. -/
theorem permB_size_counterexample :
    (preparePermB (V := Int) (some ⟨4, [0, 2], [1, 3]⟩)
        (some ⟨4, [0, 1, 2], [7, 7, 7]⟩)).map List.length = some 3
    ∧ (preparePermB (V := Int) (some ⟨4, [0, 2], [1, 3]⟩)
        (some ⟨4, [0, 1, 2], [7, 7, 7]⟩)).map List.length ≠ some 2 := by
  exact ⟨rfl, by decide⟩

/-- C8 amended: the filling of the permutation of operand b is guarded by
the block of operand a being non null, not by the block of b; when it is
filled its size is read from the count of b itself.  With a null a block
the permutation of b stays empty whatever b holds, and with a non null a
block and a null b block the count read dereferences a null pointer. -/
theorem permB_guarded_by_blockA {V : Type} (a b : VectorCOO V) :
    preparePermB (some a) (some b) = some (List.range b.rows.length)
    ∧ preparePermB none (some b) = some []
    ∧ preparePermB (some a) (none : Option (VectorCOO V)) = none
    ∧ preparePermB (none : Option (VectorCOO V)) none = some []
    ∧ preparePermA (some a) = List.range a.rows.length := by
  exact ⟨rfl, rfl, rfl, rfl, rfl⟩

/-- C5 counterexample: building the example matrix from the triples with a
repeated key, with integer addition installed as the reduce operator,
and reading it back returns the three arrays verbatim, not the folded
pair of entries the claim expects. -/
theorem build_duplicates_counterexample :
    (TMatrix.read
        (TMatrix.build [0, 0, 1] [0, 0, 1] [(1 : Int), 2, 3]
          (TMatrix.set_reduce (some (fun a b : Int => a + b)) exSt0).2).2).2.1
      = ([0, 0, 1], [0, 0, 1], [(1 : Int), 2, 3])
    ∧ (TMatrix.read
        (TMatrix.build [0, 0, 1] [0, 0, 1] [(1 : Int), 2, 3]
          (TMatrix.set_reduce (some (fun a b : Int => a + b)) exSt0).2).2).2.1
      ≠ ([0, 1], [0, 1], [(3 : Int), 3])
    ∧ (TMatrix.build [0, 0, 1] [0, 0, 1] [(1 : Int), 2, 3]
          (TMatrix.set_reduce (some (fun a b : Int => a + b)) exSt0).2).2.valid_lil
      = false := by
  refine ⟨rfl, ?_, rfl⟩
  decide

/-- C5 amended: TMatrix::build write-discards the COO storage, leaving
exactly COO valid and LIL untouched and stale, and copies the three
arrays verbatim: entries are not sorted and duplicate keys are not folded
by the registered reduce operator, which is left as it was. -/
theorem build_copies_triples_verbatim {T : Type} (keys1 keys2 : List Nat)
    (values : List T) (st : MatrixStorage T)
    (hv : values.length = keys1.length) (hk : keys2.length = keys1.length) :
    (TMatrix.build keys1 keys2 values st).1 = Status.Ok
    ∧ (TMatrix.build keys1 keys2 values st).2.coo_Ai = keys1
    ∧ (TMatrix.build keys1 keys2 values st).2.coo_Aj = keys2
    ∧ (TMatrix.build keys1 keys2 values st).2.coo_Ax = values
    ∧ (TMatrix.build keys1 keys2 values st).2.valid_coo = true
    ∧ (TMatrix.build keys1 keys2 values st).2.valid_lil = false
    ∧ (TMatrix.build keys1 keys2 values st).2.lil_reduce = st.lil_reduce := by
  unfold TMatrix.build MatrixStorage.validate_rwd_coo
  simp [hv, hk]

/-- Witness for the C5 amended theorem at the concrete spec input. -/
theorem build_copies_triples_verbatim_witness :
    (TMatrix.build [0, 0, 1] [0, 0, 1] [(1 : Int), 2, 3] exSt0).1 = Status.Ok
    ∧ (TMatrix.build [0, 0, 1] [0, 0, 1] [(1 : Int), 2, 3] exSt0).2.coo_Ax
        = [(1 : Int), 2, 3]
    ∧ (TMatrix.build [0, 0, 1] [0, 0, 1] [(1 : Int), 2, 3] exSt0).2.valid_lil = false := by
  have h := build_copies_triples_verbatim [0, 0, 1] [0, 0, 1] [(1 : Int), 2, 3] exSt0
    (by decide) (by decide)
  exact ⟨h.1, h.2.2.2.1, h.2.2.2.2.2.1⟩

/-- C6: building a matrix from three equal-length arrays and reading it
back yields the very same three arrays, byte for byte; in particular the
round trip is the identity up to any permutation and is byte equal
whether or not the descriptor promised sorted, duplicate-free input. -/
theorem build_read_roundtrip {T : Type} (keys1 keys2 : List Nat)
    (values : List T) (st : MatrixStorage T)
    (hv : values.length = keys1.length) (hk : keys2.length = keys1.length) :
    (TMatrix.read (TMatrix.build keys1 keys2 values st).2).1 = Status.Ok
    ∧ (TMatrix.read (TMatrix.build keys1 keys2 values st).2).2.1
        = (keys1, keys2, values) := by
  unfold TMatrix.read TMatrix.build MatrixStorage.validate_rw_coo
    MatrixStorage.validate_rwd_coo
  simp [hv, hk]

/-- Witness for C6 at a concrete input: the example triples survive the
round trip unchanged. -/
theorem build_read_roundtrip_witness :
    (TMatrix.read (TMatrix.build [1, 0] [0, 1] [(5 : Int), 6] exSt0).2).1 = Status.Ok
    ∧ (TMatrix.read (TMatrix.build [1, 0] [0, 1] [(5 : Int), 6] exSt0).2).2.1
        = ([1, 0], [0, 1], [(5 : Int), 6]) := by
  exact build_read_roundtrip [1, 0] [0, 1] [(5 : Int), 6] exSt0 (by decide) (by decide)

/-- C3: in the dense-mask dense-target masked assign loop, every index
accepted by the select predicate receives assign of the current target
entry with the value, and every other index keeps its entry; in
particular the spec scenario with target zeros, mask one-zero-one-zero,
value seven and the right projection as assign yields seven, zero, seven,
zero. -/
theorem v_assign_dn2dn_contract :
    (∀ (T : Type) (func_select : T → Bool) (func_assign : T → T → T)
        (assign_value : T) (mask r : List T) (i : Nat) (mi ri : T),
      mask.get? i = some mi → r.get? i = some ri →
      ((func_select mi = true →
        (v_assign_dn_loop func_select func_assign assign_value mask r).get? i
          = some (func_assign ri assign_value))
      ∧ (func_select mi = false →
        (v_assign_dn_loop func_select func_assign assign_value mask r).get? i
          = some ri)))
    ∧ v_assign_masked_dn2dn 4 (0 : Int) [0, 0, 0, 0] [1, 0, 1, 0] 7
        (fun _ y => y) (fun x => x != 0) = [7, 0, 7, 0] := by
  constructor
  · intro T func_select func_assign assign_value mask r i mi ri hm hr
    have hz := zipWith_get?_eq
      (fun m x => if func_select m then func_assign x assign_value else x)
      mask r i mi ri hm hr
    constructor
    · intro hs
      rw [v_assign_dn_loop, hz]
      simp [hs]
    · intro hs
      rw [v_assign_dn_loop, hz]
      simp [hs]
  · rfl

/-- Witness for C3 at the concrete spec input: position zero of the loop
result is seven, and the full dense assign yields seven, zero, seven,
zero. -/
theorem v_assign_dn2dn_contract_witness :
    (v_assign_dn_loop (fun x : Int => x != 0) (fun _ y => y) 7 [1, 0, 1, 0]
        [0, 0, 0, 0]).get? 0 = some 7
    ∧ v_assign_masked_dn2dn 4 (0 : Int) [0, 0, 0, 0] [1, 0, 1, 0] 7
        (fun _ y => y) (fun x => x != 0) = [7, 0, 7, 0] := by
  have h := v_assign_dn2dn_contract
  exact ⟨(h.1 Int (fun x => x != 0) (fun _ y => y) 7 [1, 0, 1, 0] [0, 0, 0, 0]
      0 1 0 rfl rfl).1 rfl, h.2⟩

theorem foldl_scatter_get?_untouched {T : Type} (func_select : T → Bool)
    (g : T → T) (i : Nat) :
    ∀ (l : List (Nat × T)) (acc : List T),
      (∀ e ∈ l, e.1 = i → func_select e.2 = false) →
      (l.foldl (fun acc e => if func_select e.2 then listUpd acc e.1 g else acc)
        acc).get? i = acc.get? i := by
  intro l
  induction l with
  | nil => intro acc _; rfl
  | cons e rest ih =>
    intro acc h
    have hrest : ∀ x ∈ rest, x.1 = i → func_select x.2 = false :=
      fun x hx => h x (List.mem_cons_of_mem e hx)
    rw [List.foldl_cons, ih _ hrest]
    by_cases hs : func_select e.2 = true
    · have hne : e.1 ≠ i := by
        intro hei
        rw [h e (List.mem_cons_self e rest) hei] at hs
        exact Bool.false_ne_true hs
      rw [hs]
      simp only [if_true]
      exact listUpd_get?_ne acc e.1 i g hne
    · rw [Bool.not_eq_true] at hs
      rw [hs]
      simp

/-- C9: both CPU masked assign variants validate the dense target with
write-discard semantics before assigning, so at every index the select
predicate rejects the result holds the fill value of the vector and not
the value held before the call: the prior dense content r_prior does not
appear in the result. -/
theorem v_assign_rejected_holds_fill :
    (∀ (T : Type) (n : Nat) (fill : T) (r_prior mask : List T)
        (assign_value : T) (func_assign : T → T → T) (func_select : T → Bool)
        (i : Nat) (mi : T), i < n → mask.get? i = some mi →
      func_select mi = false →
      (v_assign_masked_dn2dn n fill r_prior mask assign_value func_assign
          func_select).get? i = some fill)
    ∧ (∀ (T : Type) (n : Nat) (fill : T) (r_prior : List T) (mask_Ai : List Nat)
        (mask_Ax : List T) (assign_value : T) (func_assign : T → T → T)
        (func_select : T → Bool) (i : Nat), i < n →
      (∀ e ∈ mask_Ai.zip mask_Ax, e.1 = i → func_select e.2 = false) →
      (v_assign_masked_sp2dn n fill r_prior mask_Ai mask_Ax assign_value
          func_assign func_select).get? i = some fill) := by
  constructor
  · intro T n fill r_prior mask assign_value func_assign func_select i mi hin hm hs
    have hr : (List.replicate n fill).get? i = some fill := by
      simp [List.get?_eq_getElem?, List.getElem?_replicate, hin]
    have hz := zipWith_get?_eq
      (fun m x => if func_select m then func_assign x assign_value else x)
      mask (List.replicate n fill) i mi fill hm hr
    rw [v_assign_masked_dn2dn, v_assign_dn_loop, hz]
    simp [hs]
  · intro T n fill r_prior mask_Ai mask_Ax assign_value func_assign func_select i hin h
    rw [v_assign_masked_sp2dn,
      foldl_scatter_get?_untouched func_select (fun x => func_assign x assign_value)
        i (mask_Ai.zip mask_Ax) (List.replicate n fill) h]
    simp [List.get?_eq_getElem?, List.getElem?_replicate, hin]

/-- Witness for C9 at a concrete input: with prior content five at every
position and index one rejected by both mask shapes, both variants
deliver the fill value zero there, not five. -/
theorem v_assign_rejected_holds_fill_witness :
    (v_assign_masked_dn2dn 4 (0 : Int) [5, 5, 5, 5] [1, 0, 1, 0] 7
        (fun _ y => y) (fun x => x != 0)).get? 1 = some 0
    ∧ (v_assign_masked_sp2dn 4 (0 : Int) [5, 5, 5, 5] [0, 2] [1, 1] 7
        (fun _ y => y) (fun x => x != 0)).get? 1 = some 0 := by
  have h := v_assign_rejected_holds_fill
  refine ⟨h.1 Int 4 0 [5, 5, 5, 5] [1, 0, 1, 0] 7 (fun _ y => y)
      (fun x => x != 0) 1 0 (by decide) rfl rfl, ?_⟩
  refine h.2 Int 4 0 [5, 5, 5, 5] [0, 2] [1, 1] 7 (fun _ y => y)
      (fun x => x != 0) 1 (by decide) ?_
  decide

/-- A data line of the loader is in range when its one-based row index
lies between one and nrows and its one-based column index between one and
ncols. -/
def lineInRange (nrows ncols : Nat) (l : Nat × Nat × Int) : Prop :=
  1 ≤ l.1 ∧ l.1 ≤ nrows ∧ 1 ≤ l.2.1 ∧ l.2.1 ≤ ncols

instance (nrows ncols : Nat) (l : Nat × Nat × Int) :
    Decidable (lineInRange nrows ncols l) := by
  unfold lineInRange
  infer_instance

/-- A data line is a dropped self loop when self loop removal is on and
its row index equals its column index. -/
def selfLoopB (removeSelfLoops : Bool) (l : Nat × Nat × Int) : Bool :=
  removeSelfLoops && (l.1 == l.2.1)

theorem length_filter_add_length_filter_not {α : Type} (p : α → Bool) (l : List α) :
    (l.filter p).length + (l.filter (fun x => !(p x))).length = l.length := by
  induction l with
  | nil => rfl
  | cons x xs ih =>
    by_cases hx : p x = true
    · simp [List.filter_cons, hx, Nat.succ_add, ih]
    · rw [Bool.not_eq_true] at hx
      simp [List.filter_cons, hx, ← ih]
      omega

theorem loaderLines_ok (nrows ncols : Nat) (removeSelfLoops ignoreValues : Bool) :
    ∀ (lines : List (Nat × Nat × Int)) (nnz : Nat) (rows cols : List Nat)
      (vals : List Int),
      (∀ l ∈ lines, lineInRange nrows ncols l) →
      (lines.filter (selfLoopB removeSelfLoops)).length ≤ nnz →
      loaderLines nrows ncols removeSelfLoops ignoreValues lines nnz rows cols vals
        = .ok
            (rows ++ (lines.filter (fun l => !(selfLoopB removeSelfLoops l))).map
                (fun l => l.1),
             cols ++ (lines.filter (fun l => !(selfLoopB removeSelfLoops l))).map
                (fun l => l.2.1),
             vals ++ (if ignoreValues then [] else
                (lines.filter (fun l => !(selfLoopB removeSelfLoops l))).map
                  (fun l => l.2.2)),
             nnz - (lines.filter (selfLoopB removeSelfLoops)).length) := by
  intro lines
  induction lines with
  | nil =>
    intro nnz rows cols vals _ _
    cases ignoreValues <;> simp [loaderLines]
  | cons l rest ih =>
    obtain ⟨i, j, v⟩ := l
    intro nnz rows cols vals hin hle
    have hhead := hin (i, j, v) (List.mem_cons_self _ _)
    obtain ⟨h1, h2, h3, h4⟩ := hhead
    have hrest : ∀ l ∈ rest, lineInRange nrows ncols l :=
      fun l hl => hin l (List.mem_cons_of_mem _ hl)
    rw [loaderLines]
    rw [if_neg (not_not_intro ⟨h1, h2⟩)]
    rw [if_neg (not_not_intro ⟨h3, h4⟩)]
    by_cases hsl : (removeSelfLoops = true) ∧ i = j
    · have hslb : selfLoopB removeSelfLoops (i, j, v) = true := by
        simp [selfLoopB, hsl.1, hsl.2]
      have hlen : ((i, j, v) :: rest).filter (selfLoopB removeSelfLoops)
          = (i, j, v) :: rest.filter (selfLoopB removeSelfLoops) := by
        simp [List.filter_cons, hslb]
      rw [hlen] at hle
      simp only [List.length_cons] at hle
      have hnnz : nnz ≠ 0 := by omega
      rw [if_pos hsl]
      have hdec : sizeDec nnz = nnz - 1 := by
        unfold sizeDec
        rw [if_neg hnnz]
      rw [hdec, ih (nnz - 1) rows cols vals hrest (by omega)]
      have hkept : ((i, j, v) :: rest).filter
          (fun l => !(selfLoopB removeSelfLoops l))
          = rest.filter (fun l => !(selfLoopB removeSelfLoops l)) := by
        simp [List.filter_cons, hslb]
      rw [hlen, hkept]
      simp only [List.length_cons]
      have harith : nnz - 1 - (rest.filter (selfLoopB removeSelfLoops)).length
          = nnz - ((rest.filter (selfLoopB removeSelfLoops)).length + 1) := by
        omega
      rw [harith]
    · have hslb : selfLoopB removeSelfLoops (i, j, v) = false := by
        unfold selfLoopB
        cases hx : removeSelfLoops with
        | false => rfl
        | true =>
          have hij : i ≠ j := fun hij => hsl ⟨hx, hij⟩
          simp [hij]
      rw [if_neg hsl]
      rw [ih nnz (rows ++ [i]) (cols ++ [j])
        (vals ++ if ignoreValues then [] else [v]) hrest
        (by
          have := hle
          simp [List.filter_cons, hslb] at this ⊢
          exact this)]
      have hkept : ((i, j, v) :: rest).filter
          (fun l => !(selfLoopB removeSelfLoops l))
          = (i, j, v) :: rest.filter (fun l => !(selfLoopB removeSelfLoops l)) := by
        simp [List.filter_cons, hslb]
      have hlen : ((i, j, v) :: rest).filter (selfLoopB removeSelfLoops)
          = rest.filter (selfLoopB removeSelfLoops) := by
        simp [List.filter_cons, hslb]
      rw [hkept, hlen]
      cases ignoreValues <;> simp

theorem loaderLines_err (nrows ncols : Nat) (removeSelfLoops ignoreValues : Bool) :
    ∀ (lines : List (Nat × Nat × Int)) (nnz : Nat) (rows cols : List Nat)
      (vals : List Int),
      (∃ l ∈ lines, ¬ lineInRange nrows ncols l) →
      ∀ out, loaderLines nrows ncols removeSelfLoops ignoreValues lines nnz
        rows cols vals ≠ .ok out := by
  intro lines
  induction lines with
  | nil =>
    intro nnz rows cols vals hbad out
    obtain ⟨l, hl, _⟩ := hbad
    exact absurd hl (List.not_mem_nil l)
  | cons l rest ih =>
    obtain ⟨i, j, v⟩ := l
    intro nnz rows cols vals hbad out
    rw [loaderLines]
    by_cases hr : 1 ≤ i ∧ i ≤ nrows
    · rw [if_neg (not_not_intro hr)]
      by_cases hc : 1 ≤ j ∧ j ≤ ncols
      · rw [if_neg (not_not_intro hc)]
        have hbadrest : ∃ l ∈ rest, ¬ lineInRange nrows ncols l := by
          obtain ⟨l, hl, hnl⟩ := hbad
          rcases List.mem_cons.mp hl with hl | hl
          · exfalso
            exact hnl (by rw [hl]; exact ⟨hr.1, hr.2, hc.1, hc.2⟩)
          · exact ⟨l, hl, hnl⟩
        by_cases hsl : (removeSelfLoops = true) ∧ i = j
        · rw [if_pos hsl]
          exact ih _ _ _ _ hbadrest out
        · rw [if_neg hsl]
          exact ih _ _ _ _ hbadrest out
      · rw [if_pos hc]
        simp
    · rw [if_pos hr]
      simp

/-- C7: the matrix-market load fails whenever some data line carries a row
index outside one to nrows or a column index outside one to ncols; on a
directed load with self-loop removal and in-range lines whose count
matches the declared nnz, the result holds the kept lines with their
indices offset from one-based to zero-based, and the emitted triple count
equals the declared nnz minus the number of removed self loops. -/
theorem matrix_loader_contract :
    (∀ (nrows ncols nnz : Nat) (lines : List (Nat × Nat × Int))
        (makeUndirected removeSelfLoops ignoreValues : Bool)
        (out : List Nat × List Nat × List Int × Nat),
      (∃ l ∈ lines, ¬ lineInRange nrows ncols l) →
      MatrixLoader.Load nrows ncols nnz lines makeUndirected removeSelfLoops
        ignoreValues ≠ .ok out)
    ∧ (∀ (nrows ncols nnz : Nat) (lines : List (Nat × Nat × Int))
        (ignoreValues : Bool),
      (∀ l ∈ lines, lineInRange nrows ncols l) →
      lines.length = nnz →
      MatrixLoader.Load nrows ncols nnz lines false true ignoreValues
        = .ok
            ((lines.filter (fun l => !(selfLoopB true l))).map (fun l => l.1 - 1),
             (lines.filter (fun l => !(selfLoopB true l))).map (fun l => l.2.1 - 1),
             (if ignoreValues then
                List.replicate (lines.filter (fun l => !(selfLoopB true l))).length
                  (0 : Int)
              else (lines.filter (fun l => !(selfLoopB true l))).map (fun l => l.2.2)),
             nnz - (lines.filter (selfLoopB true)).length)) := by
  constructor
  · intro nrows ncols nnz lines makeUndirected removeSelfLoops ignoreValues out hbad
    unfold MatrixLoader.Load
    cases hres : loaderLines nrows ncols removeSelfLoops ignoreValues lines nnz [] [] [] with
    | error e => simp
    | ok r =>
      exact absurd hres (loaderLines_err nrows ncols removeSelfLoops ignoreValues
        lines nnz [] [] [] hbad r)
  · intro nrows ncols nnz lines ignoreValues hin hlen
    have hremle : (lines.filter (selfLoopB true)).length ≤ nnz := by
      have := List.length_filter_le (selfLoopB true) lines
      omega
    have hok := loaderLines_ok nrows ncols true ignoreValues lines nnz [] [] [] hin hremle
    have hcount : (lines.filter (fun l => !(selfLoopB true l))).length
        = nnz - (lines.filter (selfLoopB true)).length := by
      have := length_filter_add_length_filter_not (selfLoopB true) lines
      omega
    unfold MatrixLoader.Load
    rw [hok]
    simp only [List.nil_append, List.length_map, hcount, ne_eq, not_true_eq_false,
      if_false, ite_not]
    simp [List.map_map, Function.comp, hcount]
    by_cases hiv : ignoreValues = true <;> simp [hiv]

/-- Witness for C7 at the concrete spec input: the three by three file with
four declared entries and two self loops loads to exactly the two triples
with zero-based indices and an emitted count of two. -/
theorem matrix_loader_contract_witness :
    MatrixLoader.Load 3 3 4 [(1, 1, 1), (1, 2, 2), (2, 3, 3), (3, 3, 4)]
        false true false = .ok ([0, 1], [1, 2], [2, 3], 2) := by
  have h := matrix_loader_contract.2 3 3 4
    [(1, 1, 1), (1, 2, 2), (2, 3, 3), (3, 3, 4)] false (by decide) (by decide)
  rw [h]
  rfl

theorem filterMap_ite_nil {T U : Type} (j : Nat) (f : Nat × T → U) :
    ∀ (l : List (Nat × T)), j ∉ l.map Prod.fst →
      l.filterMap (fun e => if e.1 = j then some (f e) else none) = [] := by
  intro l
  induction l with
  | nil => intro _; rfl
  | cons e rest ih =>
    intro hnot
    simp only [List.map_cons, List.mem_cons] at hnot
    push_neg at hnot
    rw [List.filterMap_cons, if_neg (fun h => hnot.1 h.symm)]
    exact ih hnot.2

theorem filterMap_ite_eq_find_toList {T U : Type} (j : Nat) (f : Nat × T → U) :
    ∀ (l : List (Nat × T)), (l.map Prod.fst).Nodup →
      l.filterMap (fun e => if e.1 = j then some (f e) else none)
        = ((l.find? (fun e => e.1 = j)).map f).toList := by
  intro l
  induction l with
  | nil => intro _; rfl
  | cons e rest ih =>
    intro hnodup
    simp only [List.map_cons, List.nodup_cons] at hnodup
    by_cases he : e.1 = j
    · rw [List.filterMap_cons, if_pos he]
      rw [List.find?_cons_of_pos _ (by simp [he])]
      have hrest : j ∉ rest.map Prod.fst := by
        rw [← he]
        exact hnodup.1
      rw [filterMap_ite_nil j f rest hrest]
      rfl
    · rw [List.filterMap_cons, if_neg he]
      rw [List.find?_cons_of_neg _ (by simp [he])]
      exact ih hnodup.2

theorem flatMap_eq_filterMap_toList {α β : Type} (g : α → Option β) :
    ∀ (l : List α) (f : α → List β), (∀ a ∈ l, f a = (g a).toList) →
      l.flatMap f = l.filterMap g := by
  intro l
  induction l with
  | nil => intro f _; rfl
  | cons a rest ih =>
    intro f hf
    rw [List.flatMap_cons, List.filterMap_cons,
      ih f (fun x hx => hf x (List.mem_cons_of_mem a hx)),
      hf a (List.mem_cons_self a rest)]
    cases g a <;> rfl

/-- C1: the masked vector-matrix product contract of the scalar atomic
variant.  For every column j accepted by the select predicate on the mask,
the result at j is the initial value combined by the add operator with
the add-reduction, in row order, of the products of the dense source
entry at k with the matrix entry at row k and column j, over the rows k
below K where the CSR matrix stores an entry at column j; for every other
column the result at j is the initial value.  The CSR rows are required
to carry distinct column indices, the CSR well-formedness invariant. -/
theorem vxm_masked_contract {T : Type} (N K : Nat) (v mask : Nat → T)
    (M : CLCsr T) (op_select : T → Bool) (op_multiply op_add : T → T → T)
    (init : T) (j : Nat) (hj : j < N)
    (hnodup : ∀ k, k < K → ((csrRowSlice M k).map Prod.fst).Nodup) :
    (op_select (mask j) = true →
      vxm_masked_scalar N K v mask M op_select op_multiply op_add init j
        = ((List.range K).filterMap
            (fun k => (csrEntry M k j).map (fun x => op_multiply (v k) x))).foldl
            op_add init)
    ∧ (op_select (mask j) = false →
      vxm_masked_scalar N K v mask M op_select op_multiply op_add init j = init) := by
  have _ := hj
  constructor
  · intro hs
    unfold vxm_masked_scalar
    rw [hs]
    simp only [if_true]
    have hscan : vxmColumnScan K v op_multiply M j
        = (List.range K).filterMap
            (fun k => (csrEntry M k j).map (fun x => op_multiply (v k) x)) := by
      unfold vxmColumnScan
      refine flatMap_eq_filterMap_toList _ (List.range K) _ ?_
      intro k hk
      rw [filterMap_ite_eq_find_toList j (fun e => op_multiply (v k) e.2)
        (csrRowSlice M k) (hnodup k (List.mem_range.mp hk))]
      unfold csrEntry
      rw [Option.map_map]
      rfl
    rw [hscan]
  · intro hs
    unfold vxm_masked_scalar
    rw [hs]
    simp

/-- Witness for C1 at a concrete input: a two by two CSR matrix with
entries at row zero column one, row one column zero and row one column
one, dense source one and two, all-true mask, integer product and sum
with initial value zero; the contract applied at column one. -/
theorem vxm_masked_contract_witness :
    vxm_masked_scalar 2 2 (fun k => (k : Int) + 1) (fun _ => (1 : Int))
        ⟨[0, 1, 3], [1, 0, 1], [2, 3, 4]⟩ (fun x => x != 0) (· * ·) (· + ·) 0 1
      = ((List.range 2).filterMap
          (fun k => (csrEntry ⟨[0, 1, 3], [1, 0, 1], [2, 3, 4]⟩ k 1).map
            (fun x => ((k : Int) + 1) * x))).foldl (· + ·) 0
    ∧ vxm_masked_scalar 2 2 (fun k => (k : Int) + 1) (fun _ => (1 : Int))
        ⟨[0, 1, 3], [1, 0, 1], [2, 3, 4]⟩ (fun x => x != 0) (· * ·) (· + ·) 0 1
      = 10 := by
  have h := vxm_masked_contract 2 2 (fun k => (k : Int) + 1) (fun _ => (1 : Int))
    ⟨[0, 1, 3], [1, 0, 1], [2, 3, 4]⟩ (fun x => x != 0) (· * ·) (· + ·) 0 1
    (by decide) (by decide)
  refine ⟨h.1 rfl, ?_⟩
  rw [h.1 rfl]
  rfl

end Spla
